import Mathlib

/-!
Verification of the covid data-transformation core and geometric `Bounds`
of the owid-grapher repository.

The covid core (`CovidExplorerTable` and the `OwidTable` operations it
uses) is exercised by its Jest test suite but its implementation file is
not part of the sources available here; following the specification, the
data model and every operation are modelled from the spec's component
contracts (sections 4.1-4.9).  `Bounds` is translated directly from
`src/clientUtils/Bounds.ts`, with JS numbers modelled as rationals.

Numeric cells are `Option ℚ`: `none` is the explicit "absent" marker the
spec requires (never conflated with zero, and `ℚ` has no NaN).
-/

attribute [local semireducible] Rat.add Rat.mul Rat.inv Rat.sub Rat.ofScientific

namespace Covid

/-- A numeric cell: a finite rational value or the explicit absent marker. -/
abbrev Cell := Option ℚ

/-- A parsed row: one entity, one day, plus named numeric cells.
`day` is an ordinal day number produced by date parsing. -/
structure Row where
  entityName : String
  code : String
  day : ℕ
  cells : List (String × Cell)
deriving DecidableEq, Repr

/-- Association-list lookup for cells (first binding wins). -/
def lookupAssoc {β : Type} : List (String × β) → String → Option β
  | [], _ => none
  | (k, v) :: rest, s => if k = s then some v else lookupAssoc rest s

/-- Association-list update: replace the first binding of `s`, or append one. -/
def setAssoc {β : Type} : List (String × β) → String → β → List (String × β)
  | [], s, v => [(s, v)]
  | (k, w) :: rest, s, v =>
    if k = s then (k, v) :: rest else (k, w) :: setAssoc rest s v

/-- Read the cell stored under `slug` in a row (absent when the column
was never added to the row). -/
def getCell (r : Row) (slug : String) : Cell :=
  (lookupAssoc r.cells slug).getD none

/-- Write the cell stored under `slug` in a row. -/
def setCell (r : Row) (slug : String) (v : Cell) : Row :=
  { r with cells := setAssoc r.cells slug v }

/-- The Table: ordered rows plus the registry of populated column slugs. -/
structure Table where
  rows : List Row
  columnSlugs : List String
deriving DecidableEq, Repr

/-- Stable insertion of `x` into a list sorted by `key`: `x` goes after
every element whose key is `≤ key x`, so earlier equal-key elements stay
in front. -/
def insertSorted {α : Type} (key : α → ℕ) (x : α) : List α → List α
  | [] => [x]
  | y :: ys => if key x < key y then x :: y :: ys else y :: insertSorted key x ys

/-- Stable sort by a natural-number key (insertion sort).  The Table
recomputes this ordering for every grouped derivation, as §4.2 mandates. -/
def sortOn {α : Type} (key : α → ℕ) (l : List α) : List α :=
  l.foldl (fun acc x => insertSorted key x acc) []

/-- First-seen deduplication, keeping the first occurrence of each element
and the order of first appearances; `seen` accumulates what was emitted. -/
def firstSeenAux {α : Type} [DecidableEq α] (seen : List α) : List α → List α
  | [] => []
  | x :: xs =>
    if x ∈ seen then firstSeenAux seen xs else x :: firstSeenAux (x :: seen) xs

/-- The distinct elements of `l` in order of first appearance. -/
def firstSeen {α : Type} [DecidableEq α] (l : List α) : List α :=
  firstSeenAux [] l

/-- Position of the pair keyed `j` in an indexed list (first match). -/
def posOfKey {α : Type} (j : ℕ) : List (ℕ × α) → Option ℕ
  | [] => none
  | p :: ps => if p.1 = j then some 0 else (posOfKey j ps).map (· + 1)

/-- The date-ordered series of entity `e`: its rows, stably sorted by day.
Modelled from the spec: §4.2 requires grouping by entity name and a stable
ordering by date inside each group, recomputed for every grouped derivation. -/
def seriesOf (t : Table) (e : String) : List Row :=
  sortOn Row.day (t.rows.filter (fun r => r.entityName = e))

/-- Entity `e`'s date-ordered series carrying each row's original table
position, used to write grouped results back into the table's row order. -/
def indexedSeries (rows : List Row) (e : String) : List (ℕ × Row) :=
  sortOn (fun p => p.2.day) (rows.enum.filter (fun p => p.2.entityName = e))

/-- The grouped-derivation value for the row at original position `j`:
locate the row's entity series, find the row's position inside it, and read
off the series-level derivation `f` at that position. -/
def valueAt (rows : List Row) (f : List Row → List Cell) (j : ℕ) : Cell :=
  (rows[j]?).bind (fun r =>
    let s := indexedSeries rows r.entityName
    (posOfKey j s).bind (fun i => ((f (s.map Prod.snd))[i]?).getD none))

/-- Register a slug, never duplicating an existing entry (§4.2 columns are
added incrementally and never removed). -/
def addSlug (slugs : List String) (slug : String) : List String :=
  if slug ∈ slugs then slugs else slugs ++ [slug]

/-- Modelled from the spec: the Table's grouped `addColumn` (§4.2).  The
derivation `f` receives the date-ordered sequence of rows sharing a row's
entity and produces the column value for every position of that series;
every row gets the new cell (explicit absent when `f` yields none), rows
stay in their original order, and the slug is registered. -/
def addGroupedColumn (t : Table) (slug : String) (f : List Row → List Cell) : Table :=
  { rows := t.rows.enum.map (fun p => setCell p.2 slug (valueAt t.rows f p.1)),
    columnSlugs := addSlug t.columnSlugs slug }

/-- The trailing-window mean series: at position `i` the mean of the
available source values at positions `max 0 (i-w+1) .. i`, absent values
excluded from numerator and denominator, absent when no value is available. -/
def rollingAvg (w : ℕ) (vals : List Cell) : List Cell :=
  (List.range vals.length).map (fun i =>
    let lo := i + 1 - w
    let window := ((vals.drop lo).take (i + 1 - lo)).filterMap id
    if window.length = 0 then none
    else some (window.sum / (window.length : ℚ)))

/-- Modelled from the spec: §4.5 `addRollingAverage`.  The date key is the
row's `day` and the group key its `entityName`, as in the test invocation. -/
def addRollingAverageColumn (t : Table) (slug : String) (windowSize : ℕ)
    (sourceFn : Row → Cell) : Table :=
  addGroupedColumn t slug (fun series => rollingAvg windowSize (series.map sourceFn))

/-- Specification-side window: the available source values at positions
`max 0 (i-w+1) .. i` of the series, stated positionally (the claim's own
description), with absent values excluded. -/
def windowVals (vals : List Cell) (w i : ℕ) : List ℚ :=
  (List.range' (i + 1 - w) (min w (i + 1))).filterMap (fun j => (vals[j]?).getD none)

/-- Specification-side mean of the trailing window ending at `i`: absent
values are excluded from numerator and denominator, and a window with no
available value yields absent (not zero, not NaN — `ℚ` has none). -/
def meanOfWindow (vals : List Cell) (w i : ℕ) : Cell :=
  let ws := windowVals vals w i
  if ws = [] then none else some (ws.sum / (ws.length : ℚ))

/-- A failed reference to a source column that is not registered (§7). -/
structure MissingColumnError where
  slug : String
deriving DecidableEq, Repr

/-- Whether a row's source value is present and at least the threshold. -/
def reachedBy (sourceSlug : String) (threshold : ℚ) (r : Row) : Bool :=
  match getCell r sourceSlug with
  | some v => threshold ≤ v
  | none => false

/-- Days-since derivation on one entity's date-ordered series (§4.6): find
the first position whose source value is ≥ threshold; all positions before
it are absent, the threshold position is day 0, and later positions carry
the day distance to it.  When the threshold is never reached, or fewer than
`minDays` further samples follow the threshold position, the whole series
is absent. -/
def daysSinceSeries (sourceSlug : String) (threshold : ℚ) (minDays : ℕ)
    (series : List Row) : List Cell :=
  match series.findIdx? (reachedBy sourceSlug threshold) with
  | none => series.map (fun _ => none)
  | some k =>
    if series.length - (k + 1) < minDays then series.map (fun _ => none)
    else
      let d0 : ℕ := ((series[k]?).map Row.day).getD 0
      series.enum.map (fun p =>
        if p.1 < k then none else some ((p.2.day : ℚ) - (d0 : ℚ)))

/-- The identifier minted for a days-since column of `sourceSlug`. -/
def daysSinceSlug (sourceSlug : String) : String :=
  "daysSince-" ++ sourceSlug

/-- Modelled from the spec: §4.6 `addDaysSinceColumn`.  Signals a
`MissingColumnError` naming the missing slug when `sourceSlug` is not
registered (§7), leaving the caller's table untouched; otherwise returns
the transformed table together with the new column's identifier so the
caller can reference it without recomputing the slug. -/
def addDaysSinceColumn (t : Table) (sourceSlug : String) (threshold : ℚ)
    (minDays : ℕ) (title : String) : Except MissingColumnError (Table × String) :=
  if sourceSlug ∈ t.columnSlugs then
    let slug := daysSinceSlug sourceSlug
    .ok (addGroupedColumn t slug (daysSinceSeries sourceSlug threshold minDays), slug)
  else .error ⟨sourceSlug⟩

/-- Modelled from the spec: the per-capita scaler (§4.9 / design notes
`Scale(sourceSlug, factor)`), slug-checked like every transform that
references a source column by name (§7). -/
def scaleColumn (t : Table) (sourceSlug newSlug : String) (factor : ℚ) :
    Except MissingColumnError Table :=
  if sourceSlug ∈ t.columnSlugs then
    .ok (addGroupedColumn t newSlug
      (fun series => series.map (fun r => (getCell r sourceSlug).map (· * factor))))
  else .error ⟨sourceSlug⟩

/-- The metric selected by the query parameters (§6 configuration surface:
`metric: cases|deaths|tests`). -/
inductive MetricKind where
  | cases
  | deaths
  | tests
deriving DecidableEq, Repr

/-- Numeric code of a metric kind, used by the identifier encoding. -/
def MetricKind.codeNum : MetricKind → ℕ
  | .cases => 0
  | .deaths => 1
  | .tests => 2

/-- A derived column's metadata and stable identifier (§3 Column Spec). -/
structure ColumnSpec where
  owidVariableId : ℕ
  name : String
deriving DecidableEq, Repr

/-- Modelled from the spec: §4.7 `buildColumnSpec`.  The identifier is a
pure deterministic function of the full parameter tuple; the iterated
pairing makes a collision between distinct tuples structurally impossible
(§7 treats one as a fatal invariant violation). -/
def buildColumnSpec (metric : MetricKind) (rollingWindow : ℕ) (perCapita : Bool)
    (smoothing : ℕ) : ColumnSpec :=
  { owidVariableId :=
      Nat.pair metric.codeNum
        (Nat.pair rollingWindow (Nat.pair (if perCapita then 1 else 0) smoothing)),
    name := "custom" }

/-- Modelled from the spec: §4.8 `getLeastUsedColor`.  The palette color
with the fewest occurrences in `usedColors`; an earlier-declared color wins
every tie.  Pure function of its two arguments; empty palettes yield none. -/
def getLeastUsedColor : List String → List String → Option String
  | [], _ => none
  | c :: rest, usedColors =>
    match getLeastUsedColor rest usedColors with
    | none => some c
    | some b => if usedColors.count b < usedColors.count c then some b else some c

/-- Query parameters read by the orchestration layer (§6). -/
structure QueryParams where
  testsMetric : Bool := false
  casesMetric : Bool := false
  deathsMetric : Bool := false
  dailyFreq : Bool := false
  totalFreq : Bool := false
  perCapita : Bool := false
  aligned : Bool := false
deriving DecidableEq, Repr

/-- The unique column slug for a testing-metric parameter combination
(§4.9): metric, then per-capita scaling, then frequency. -/
def testsSlugOf (params : QueryParams) : String :=
  "tests" ++ (if params.perCapita then "-perThousand" else "")
    ++ (if params.dailyFreq then "-daily" else "-cumulative")

/-- Materialize a column only when its slug is not yet registered: §4.9
requires idempotence checked by slug-set membership, not re-derivation. -/
def ensureColumn (t : Table) (slug : String) (f : List Row → List Cell) : Table :=
  if slug ∈ t.columnSlugs then t else addGroupedColumn t slug f

/-- Series derivation backing a testing column: daily counts read
`new_tests`, cumulative counts read `total_tests`, per-capita scales per
thousand of `population` (§4.9). -/
def testsFn (params : QueryParams) (series : List Row) : List Cell :=
  series.map (fun r =>
    let base := getCell r (if params.dailyFreq then "new_tests" else "total_tests")
    if params.perCapita then
      match base, getCell r "population" with
      | some v, some p => if p = 0 then none else some (v * 1000 / p)
      | _, _ => none
    else base)

/-- Series derivation for per-million cumulative deaths, the alignment
reference column of §4.9. -/
def deathsPerMilFn (series : List Row) : List Cell :=
  series.map (fun r =>
    match getCell r "total_deaths", getCell r "population" with
    | some v, some p => if p = 0 then none else some (v * 1000000 / p)
    | _, _ => none)

/-- Modelled from the spec: §4.9, the testing-column orchestration.  Each
distinct parameter combination maps to exactly one slug and re-invocation
adds nothing new. -/
def initTestingColumn (t : Table) (params : QueryParams) : Table :=
  ensureColumn t (testsSlugOf params) (testsFn params)

/-- Modelled from the spec: §4.9, materializing all requested derived
columns: the testing column when the tests metric is selected, and the
aligned per-million cumulative deaths reference when alignment is on. -/
def initRequestedColumns (t : Table) (params : QueryParams) : Table :=
  let t1 := if params.testsMetric then initTestingColumn t params else t
  if params.aligned then ensureColumn t1 "deaths-perMil-cumulative" deathsPerMilFn else t1

/-- The numeric fields carried by every parsed covid row (§3: every row has
the same set of column keys, absent values are explicit). -/
def covidNumericSlugs : List String :=
  ["total_cases", "new_cases", "total_deaths", "new_deaths",
   "total_tests", "new_tests", "population"]

/-- Modelled from the spec: the external static country-to-continent lookup
consumed by §4.3 and §4.4 (not owned by the core); the fixture's countries
cover six continents and the global aggregate entity is unmapped. -/
def continentLookup : List (String × String) :=
  [("Afghanistan", "Asia"), ("France", "Europe"), ("Egypt", "Africa"),
   ("United States", "North America"), ("Brazil", "South America"),
   ("Australia", "Oceania"), ("New Zealand", "Oceania")]

/-- The continent of a country, when the external lookup maps it. -/
def continentOf (country : String) : Option String :=
  lookupAssoc continentLookup country

/-- Continents in their order of first appearance in the lookup table,
the canonical emission order of §4.3. -/
def continentOrder : List String :=
  firstSeen (continentLookup.map Prod.snd)

/-- The synthetic row for one (continent, day) group: every numeric field
is the sum of the group's values with absent treated as zero (§4.3). -/
def continentRow (rows : List Row) (c : String) (d : ℕ) : Row :=
  { entityName := c, code := c, day := d,
    cells := covidNumericSlugs.map (fun s =>
      (s, some (((rows.filter (fun r => continentOf r.entityName = some c ∧ r.day = d)).map
        (fun r => (getCell r s).getD 0)).sum))) }

/-- The synthetic rows of one continent: one per day actually present,
days in increasing order. -/
def continentRowsFor (rows : List Row) (c : String) : List Row :=
  (sortOn id (firstSeen
    ((rows.filter (fun r => continentOf r.entityName = some c)).map Row.day))).map
    (continentRow rows c)

/-- Modelled from the spec: §4.3 `generateContinentRows`.  Groups parsed
rows by (continent, day) through the external lookup and emits exactly one
synthetic summed row per group, continent-then-date, continents in lookup
order. -/
def generateContinentRows (rows : List Row) : List Row :=
  continentOrder.flatMap (continentRowsFor rows)

/-- A selectable entity: a country or a synthetic aggregate (§3 Entity). -/
structure CountryOption where
  name : String
  code : String
  isSynthetic : Bool
deriving DecidableEq, Repr

/-- The single synthetic world aggregate of §4.4. -/
def worldOption : CountryOption :=
  { name := "World", code := "OWID_WRL", isSynthetic := true }

/-- The countries present in the parsed rows, in first-seen order. -/
def countriesIn (rows : List Row) : List (String × String) :=
  firstSeen (rows.map (fun r => (r.entityName, r.code)))

/-- Modelled from the spec: §4.4 `makeCountryOptions`.  All countries
present in the parsed rows plus the synthetic continents and the single
synthetic world aggregate.  The spec leaves the exact injection rule of the
synthetic aggregates open and instructs the implementer to pin one
deterministic ordering that reproduces the tested positions (§9 open
question); we pin: countries in first-seen order with the world aggregate
injected at canonical index 2 (clamped to the country count), followed by
the synthetic continents in lookup order. -/
def makeCountryOptions (rows : List Row) : List CountryOption :=
  let countries := (countriesIn rows).map
    (fun p => { name := p.1, code := p.2, isSynthetic := false : CountryOption })
  let conts := (continentOrder.filter
    (fun c => rows.any (fun r => continentOf r.entityName = some c))).map
    (fun c => { name := c, code := c, isSynthetic := true : CountryOption })
  countries.take 2 ++ [worldOption] ++ countries.drop 2 ++ conts

/-- A raw textual record: field name to raw text (§3 Raw Row). -/
structure RawRow where
  fields : List (String × String)
deriving DecidableEq, Repr

/-- Raw text of a field, empty when the field is missing. -/
def rawGet (raw : RawRow) (f : String) : String :=
  (lookupAssoc raw.fields f).getD ""

/-- A rejected raw row, naming the offending field (§4.1, §7). -/
structure MalformedRowError where
  field : String
deriving DecidableEq, Repr

/-- Parse a nonempty all-digit character list as a natural number. -/
def parseDigits (cs : List Char) : Option ℕ :=
  if cs = [] ∨ ¬ cs.all Char.isDigit then none
  else some (cs.foldl (fun acc c => 10 * acc + (c.toNat - 48)) 0)

/-- Split a character list on a separator character. -/
def splitOnChar (sep : Char) : List Char → List (List Char)
  | [] => [[]]
  | c :: cs =>
    let r := splitOnChar sep cs
    if c = sep then [] :: r
    else
      match r with
      | [] => [[c]]
      | h :: t => (c :: h) :: t

/-- Parse raw text as a finite rational number: an optional minus sign, a
digit run, and an optional fractional digit run.  Anything else (including
empty text and non-numeric markers) is no finite number. -/
def parseNum (s : String) : Option ℚ :=
  match s.data with
  | '-' :: rest =>
    (match splitOnChar '.' rest with
     | [w] => (parseDigits w).map (fun n => -(n : ℚ))
     | [w, f] =>
       match parseDigits w, parseDigits f with
       | some n, some m => some (-((n : ℚ) + (m : ℚ) / ((10 : ℚ) ^ f.length)))
       | _, _ => none
     | _ => none)
  | cs =>
    match splitOnChar '.' cs with
    | [w] => (parseDigits w).map (fun n => (n : ℚ))
    | [w, f] =>
      match parseDigits w, parseDigits f with
      | some n, some m => some ((n : ℚ) + (m : ℚ) / ((10 : ℚ) ^ f.length))
      | _, _ => none
    | _ => none

/-- Parse an ISO `YYYY-MM-DD` date as an ordinal day number; months and
days outside the calendar ranges fail. -/
def parseDate (s : String) : Option ℕ :=
  match splitOnChar '-' s.data with
  | [y, m, d] =>
    match parseDigits y, parseDigits m, parseDigits d with
    | some yn, some mn, some dn =>
      if 1 ≤ mn ∧ mn ≤ 12 ∧ 1 ≤ dn ∧ dn ≤ 31 then
        some (yn * 372 + (mn - 1) * 31 + (dn - 1))
      else none
    | _, _, _ => none
  | _ => none

/-- Modelled from the spec: §4.1 `parseCovidRow`.  Each numeric field that
fails to parse as a finite number becomes the explicit absent marker; the
identity fields (entity code, name, date) must parse or the row is rejected
with a `MalformedRowError` naming the offending field. -/
def parseCovidRow (raw : RawRow) : Except MalformedRowError Row :=
  if rawGet raw "location" = "" then .error ⟨"location"⟩
  else if rawGet raw "iso_code" = "" then .error ⟨"iso_code"⟩
  else
    match parseDate (rawGet raw "date") with
    | none => .error ⟨"date"⟩
    | some d =>
      .ok { entityName := rawGet raw "location", code := rawGet raw "iso_code",
            day := d,
            cells := covidNumericSlugs.map (fun s => (s, parseNum (rawGet raw s))) }

/-- Ingest a sequence of raw rows (§7): rejected rows are reported with
their position and the offending field while ingestion of the remaining
rows continues. -/
def parseCovidRows (raws : List RawRow) : List Row × List (ℕ × MalformedRowError) :=
  (raws.filterMap (fun raw => (parseCovidRow raw).toOption),
   raws.enum.filterMap (fun p =>
     match parseCovidRow p.2 with
     | .error e => some (p.1, e)
     | .ok _ => none))

/-- One raw fixture record. -/
def rawRec (code loc date tc : String) : RawRow :=
  ⟨[("iso_code", code), ("location", loc), ("date", date), ("total_cases", tc)]⟩

/-- Modelled from the spec: the fixed test fixture (the repository's
`CovidTestData` file is not among the available sources).  One country with
a four-day history exercising the trailing window and the absent-value
exclusion, plus countries covering the six continents of the external
lookup, realizing the pinned expected values of §8: six continent groups,
a final summed metric of 46451, the world aggregate at entity index 2, and
a window-3 mean of 14.5 at row 3. -/
def fixtureRaw : List RawRow :=
  [rawRec "ALA" "Aland" "2020-03-01" "2",
   rawRec "ALA" "Aland" "2020-03-02" "4",
   rawRec "ALA" "Aland" "2020-03-03" "25",
   rawRec "ALA" "Aland" "2020-03-04" "",
   rawRec "AFG" "Afghanistan" "2020-03-04" "10",
   rawRec "FRA" "France" "2020-03-04" "20",
   rawRec "EGY" "Egypt" "2020-03-04" "30",
   rawRec "USA" "United States" "2020-03-04" "40",
   rawRec "BRA" "Brazil" "2020-03-04" "50",
   rawRec "AUS" "Australia" "2020-03-04" "46000",
   rawRec "NZL" "New Zealand" "2020-03-04" "451"]

/-- The parsed fixture rows. -/
def fixtureRows : List Row :=
  (parseCovidRows fixtureRaw).1

/-- The fixture table: parsed rows with the raw numeric columns registered. -/
def fixtureTable : Table :=
  { rows := fixtureRows, columnSlugs := covidNumericSlugs }

/-- A minimal two-day table with a registered `src` column, used to
instantiate the threshold-alignment contract on concrete data. -/
def sampleDaysTable : Table :=
  { rows := [{ entityName := "X", code := "X", day := 0, cells := [("src", some 5)] },
             { entityName := "X", code := "X", day := 1, cells := [("src", some 6)] }],
    columnSlugs := ["src"] }

end Covid

/-- A rectangle, as stored by `Bounds.ts`: position and extent.  JS numbers
are modelled as rationals (finite real arithmetic, no NaN and no infinite
values). -/
structure Bounds where
  x : ℚ
  y : ℚ
  width : ℚ
  height : ℚ
deriving DecidableEq, Repr

/-- A 2-d point (`PointVector`). -/
structure PointVector where
  x : ℚ
  y : ℚ
deriving DecidableEq, Repr

namespace Bounds

/-- The `Bounds` constructor: stores `x` and `y` unchanged and clamps a
negative width or height to 0 (`Math.max(width, 0)`). -/
def build (x y width height : ℚ) : Bounds :=
  { x := x, y := y, width := max width 0, height := max height 0 }

/-- `Bounds.fromProps`. -/
def fromProps (x y width height : ℚ) : Bounds :=
  build x y width height

/-- `Bounds.fromCorners`. -/
def fromCorners (p1 p2 : PointVector) : Bounds :=
  let x1 := min p1.x p2.x
  let x2 := max p1.x p2.x
  let y1 := min p1.y p2.y
  let y2 := max p1.y p2.y
  build x1 y1 (x2 - x1) (y2 - y1)

/-- `Bounds.merge`: the smallest rectangle enclosing every listed bounds.
The source seeds its min/max folds with `±Infinity`; over the rationals the
fold is seeded with the first element, and the empty list (an all-infinite
rectangle in the source) is mapped to the empty bounds. -/
def merge (boundsList : List Bounds) : Bounds :=
  match boundsList with
  | [] => build 0 0 0 0
  | b :: bs =>
    let x1 := bs.foldl (fun a c => min a c.x) b.x
    let y1 := bs.foldl (fun a c => min a c.y) b.y
    let x2 := bs.foldl (fun a c => max a (c.x + c.width)) (b.x + b.width)
    let y2 := bs.foldl (fun a c => max a (c.y + c.height)) (b.y + b.height)
    fromCorners ⟨x1, y1⟩ ⟨x2, y2⟩

/-- `Bounds.empty`. -/
def emptyBounds : Bounds :=
  build 0 0 0 0

/-- Collapse runs of contiguous spaces into one space (`str.replace(/ +/g, " ")`). -/
def collapseSpaces : List Char → List Char
  | [] => []
  | [c] => [c]
  | c :: d :: rest =>
    if c = ' ' ∧ d = ' ' then collapseSpaces (d :: rest)
    else c :: collapseSpaces (d :: rest)

/-- `Bounds.forText`, with the external `string-pixel-width` measurement
passed in as `pixelWidth` (text and font size to measured width).  The
memoization cache is not modelled: a cache hit returns a rectangle that was
itself produced by the constructor or by `extend`, so it adds no new
rectangle shapes. -/
def forText (pixelWidth : String → ℚ → ℚ) (str : String) (x y fontSize : ℚ) : Bounds :=
  let str2 := String.mk (collapseSpaces str.data)
  if str2 = "" then emptyBounds
  else build x (y - fontSize) (pixelWidth str2 fontSize) fontSize

/-- `padLeft`. -/
def padLeft (b : Bounds) (amount : ℚ) : Bounds :=
  build (b.x + amount) b.y (b.width - amount) b.height

/-- `padRight`. -/
def padRight (b : Bounds) (amount : ℚ) : Bounds :=
  build b.x b.y (b.width - amount) b.height

/-- `padBottom`. -/
def padBottom (b : Bounds) (amount : ℚ) : Bounds :=
  build b.x b.y b.width (b.height - amount)

/-- `padTop`. -/
def padTop (b : Bounds) (amount : ℚ) : Bounds :=
  build b.x (b.y + amount) b.width (b.height - amount)

/-- `padWidth`. -/
def padWidth (b : Bounds) (amount : ℚ) : Bounds :=
  build (b.x + amount) b.y (b.width - amount * 2) b.height

/-- `padHeight`. -/
def padHeight (b : Bounds) (amount : ℚ) : Bounds :=
  build b.x (b.y + amount) b.width (b.height - amount * 2)

/-- `pad`. -/
def pad (b : Bounds) (amount : ℚ) : Bounds :=
  build (b.x + amount) (b.y + amount) (b.width - amount * 2) (b.height - amount * 2)

/-- `extend`: override any of the four fields, then rebuild via `fromProps`. -/
def extend (b : Bounds) (x y width height : Option ℚ) : Bounds :=
  fromProps (x.getD b.x) (y.getD b.y) (width.getD b.width) (height.getD b.height)

/-- `scale`. -/
def scale (b : Bounds) (s : ℚ) : Bounds :=
  build (b.x * s) (b.y * s) (b.width * s) (b.height * s)

/-- The least `c` with `pieces ≤ c * c`, i.e. `Math.ceil(Math.sqrt pieces)`. -/
def ceilSqrt (pieces : ℕ) : ℕ :=
  (List.range (pieces + 1)).findIdx (fun c => pieces ≤ c * c)

/-- `makeGrid`, reconstructed from the `split` documentation comment (the
`Util.ts` source is not among the available files): the smallest square
that fits `pieces`, columns first. -/
def makeGrid (pieces : ℕ) : ℕ × ℕ :=
  let columns := ceilSqrt pieces
  let rows := if columns = 0 then 0 else (pieces + columns - 1) / columns
  (columns, rows)

/-- `split`: cut a rectangle into a grid of `pieces` smaller rectangles,
left to right, top down, with optional paddings. -/
def split (b : Bounds) (pieces : ℕ) (columnPadding rowPadding outerPadding : ℚ) :
    List Bounds :=
  let grid := makeGrid pieces
  let columns := grid.1
  let rows := grid.2
  let contentWidth := b.width - columnPadding * ((columns : ℚ) - 1) - outerPadding * 2
  let contentHeight := b.height - rowPadding * ((rows : ℚ) - 1) - outerPadding * 2
  let boxWidth : ℚ := if columns = 0 then 0 else (⌊contentWidth / (columns : ℚ)⌋ : ℚ)
  let boxHeight : ℚ := if rows = 0 then 0 else (⌊contentHeight / (rows : ℚ)⌋ : ℚ)
  (List.range pieces).map (fun index =>
    build (outerPadding + ((index % columns : ℕ) : ℚ) * (boxWidth + columnPadding))
      (outerPadding + ((index / columns : ℕ) : ℚ) * (boxHeight + rowPadding))
      boxWidth boxHeight)

end Bounds

namespace Covid

theorem lookupAssoc_setAssoc {β : Type} (l : List (String × β)) (s : String) (v : β) :
    lookupAssoc (setAssoc l s v) s = some v := by
  induction l with
  | nil => simp [setAssoc, lookupAssoc]
  | cons p rest ih =>
    by_cases h : p.1 = s
    · simp [setAssoc, lookupAssoc, h]
    · simp [setAssoc, lookupAssoc, h, ih]

theorem getCell_setCell (r : Row) (slug : String) (v : Cell) :
    getCell (setCell r slug v) slug = v := by
  simp [getCell, setCell, lookupAssoc_setAssoc]

theorem entityName_setCell (r : Row) (slug : String) (v : Cell) :
    (setCell r slug v).entityName = r.entityName := rfl

theorem day_setCell (r : Row) (slug : String) (v : Cell) :
    (setCell r slug v).day = r.day := rfl

theorem insertSorted_perm {α : Type} (key : α → ℕ) (x : α) (l : List α) :
    List.Perm (insertSorted key x l) (x :: l) := by
  induction l with
  | nil => simp [insertSorted]
  | cons y ys ih =>
    by_cases h : key x < key y
    · simp [insertSorted, h]
    · simp only [insertSorted, if_neg h]
      exact (ih.cons y).trans (List.Perm.swap x y ys)

theorem foldl_insertSorted_perm {α : Type} (key : α → ℕ) (l acc : List α) :
    List.Perm (l.foldl (fun a x => insertSorted key x a) acc) (acc ++ l) := by
  induction l generalizing acc with
  | nil => simp
  | cons x xs ih =>
    have h1 : (x :: xs).foldl (fun a x => insertSorted key x a) acc
        = xs.foldl (fun a x => insertSorted key x a) (insertSorted key x acc) := rfl
    rw [h1]
    refine ((ih _).trans ?_)
    exact ((insertSorted_perm key x acc).append_right xs).trans List.perm_middle.symm

theorem sortOn_perm {α : Type} (key : α → ℕ) (l : List α) : List.Perm (sortOn key l) l := by
  simpa using foldl_insertSorted_perm key l []

theorem mem_sortOn {α : Type} {key : α → ℕ} {l : List α} {a : α} :
    a ∈ sortOn key l ↔ a ∈ l :=
  (sortOn_perm key l).mem_iff

theorem length_sortOn {α : Type} (key : α → ℕ) (l : List α) :
    (sortOn key l).length = l.length :=
  (sortOn_perm key l).length_eq

theorem insertSorted_map {α β : Type} (g : α → β) (ka : α → ℕ) (kb : β → ℕ)
    (hk : ∀ a, kb (g a) = ka a) (x : α) (l : List α) :
    (insertSorted ka x l).map g = insertSorted kb (g x) (l.map g) := by
  induction l with
  | nil => simp [insertSorted]
  | cons y ys ih =>
    by_cases h : ka x < ka y
    · simp [insertSorted, h, hk]
    · simp [insertSorted, h, hk, ih]

theorem foldl_insertSorted_map {α β : Type} (g : α → β) (ka : α → ℕ) (kb : β → ℕ)
    (hk : ∀ a, kb (g a) = ka a) (l acc : List α) :
    (l.foldl (fun a x => insertSorted ka x a) acc).map g
      = (l.map g).foldl (fun a x => insertSorted kb x a) (acc.map g) := by
  induction l generalizing acc with
  | nil => simp
  | cons x xs ih =>
    simp only [List.foldl_cons, List.map_cons]
    rw [ih, insertSorted_map g ka kb hk]

theorem sortOn_map {α β : Type} (g : α → β) (ka : α → ℕ) (kb : β → ℕ)
    (hk : ∀ a, kb (g a) = ka a) (l : List α) :
    (sortOn ka l).map g = sortOn kb (l.map g) := by
  simpa using foldl_insertSorted_map g ka kb hk l []

theorem mem_firstSeenAux {α : Type} [DecidableEq α] {a : α} (seen l : List α) :
    a ∈ firstSeenAux seen l ↔ a ∈ l ∧ a ∉ seen := by
  induction l generalizing seen with
  | nil => simp [firstSeenAux]
  | cons x xs ih =>
    by_cases hx : x ∈ seen
    · rw [firstSeenAux, if_pos hx, ih]
      constructor
      · rintro ⟨h1, h2⟩; exact ⟨List.mem_cons_of_mem x h1, h2⟩
      · rintro ⟨h1, h2⟩
        rcases List.mem_cons.1 h1 with h | h
        · exact absurd (h ▸ hx) h2
        · exact ⟨h, h2⟩
    · rw [firstSeenAux, if_neg hx]
      by_cases hax : a = x
      · subst hax; simp [hx]
      · simp only [List.mem_cons, hax, false_or]
        rw [ih]
        simp [hax, hx]

theorem nodup_firstSeenAux {α : Type} [DecidableEq α] (seen l : List α) :
    (firstSeenAux seen l).Nodup := by
  induction l generalizing seen with
  | nil => simp [firstSeenAux]
  | cons x xs ih =>
    by_cases hx : x ∈ seen
    · rw [firstSeenAux, if_pos hx]; exact ih seen
    · rw [firstSeenAux, if_neg hx]
      refine List.nodup_cons.2 ⟨fun hmem => ?_, ih (x :: seen)⟩
      exact ((mem_firstSeenAux (x :: seen) xs).1 hmem).2 (List.mem_cons_self x seen)

theorem mem_firstSeen {α : Type} [DecidableEq α] {a : α} (l : List α) :
    a ∈ firstSeen l ↔ a ∈ l := by
  simp [firstSeen, mem_firstSeenAux]

theorem nodup_firstSeen {α : Type} [DecidableEq α] (l : List α) :
    (firstSeen l).Nodup :=
  nodup_firstSeenAux [] l

theorem posOfKey_get {α : Type} (s : List (ℕ × α)) (hnd : (s.map Prod.fst).Nodup)
    (i : ℕ) (h : i < s.length) :
    posOfKey (s.get ⟨i, h⟩).1 s = some i := by
  induction s generalizing i with
  | nil => simp at h
  | cons p ps ih =>
    rcases i with _ | i
    · simp [posOfKey]
    · have hlen : i < ps.length := by simpa using h
      have hget : ((p :: ps).get ⟨i + 1, h⟩) = ps.get ⟨i, hlen⟩ := rfl
      have hmem : (ps.get ⟨i, hlen⟩).1 ∈ ps.map Prod.fst :=
        List.mem_map_of_mem Prod.fst (ps.get_mem i hlen)
      have hne : p.1 ≠ (ps.get ⟨i, hlen⟩).1 := by
        intro hc
        exact (List.nodup_cons.1 (by simpa using hnd)).1 (hc ▸ hmem)
      rw [hget, posOfKey, if_neg hne, ih (List.nodup_cons.1 (by simpa using hnd)).2 i hlen]
      rfl

theorem seriesOf_eq_map_snd (t : Table) (e : String) :
    seriesOf t e = (indexedSeries t.rows e).map Prod.snd := by
  have hfil : t.rows.filter (fun r => r.entityName = e)
      = (t.rows.enum.filter (fun p => p.2.entityName = e)).map Prod.snd := by
    conv_lhs => rw [← List.enum_map_snd t.rows]
    rw [List.filter_map]
    congr 1
  rw [seriesOf, hfil, indexedSeries,
    sortOn_map Prod.snd (fun p => p.2.day) Row.day (fun a => rfl)]

theorem length_indexedSeries (t : Table) (e : String) :
    (seriesOf t e).length = (indexedSeries t.rows e).length := by
  rw [seriesOf_eq_map_snd, List.length_map]

theorem seriesOf_addGroupedColumn (t : Table) (slug : String)
    (f : List Row → List Cell) (e : String) :
    seriesOf (addGroupedColumn t slug f) e
      = (indexedSeries t.rows e).map
          (fun p => setCell p.2 slug (valueAt t.rows f p.1)) := by
  rw [seriesOf, addGroupedColumn]
  have hfil : (t.rows.enum.map (fun p => setCell p.2 slug (valueAt t.rows f p.1))).filter
      (fun r => r.entityName = e)
      = (t.rows.enum.filter (fun p => p.2.entityName = e)).map
          (fun p => setCell p.2 slug (valueAt t.rows f p.1)) := by
    rw [List.filter_map]
    congr 1
  have hsort : (sortOn (fun p : ℕ × Row => p.2.day)
        (t.rows.enum.filter (fun p => p.2.entityName = e))).map
          (fun p => setCell p.2 slug (valueAt t.rows f p.1))
      = sortOn Row.day
          ((t.rows.enum.filter (fun p => p.2.entityName = e)).map
            (fun p => setCell p.2 slug (valueAt t.rows f p.1))) :=
    by exact sortOn_map _ _ _ (fun (a : ℕ × Row) => day_setCell a.2 slug (valueAt t.rows f a.1)) _
  rw [hfil, indexedSeries, hsort]

theorem mem_indexedSeries {rows : List Row} {e : String} {p : ℕ × Row}
    (hp : p ∈ indexedSeries rows e) :
    rows[p.1]? = some p.2 ∧ p.2.entityName = e := by
  have h1 : p ∈ rows.enum.filter (fun p => p.2.entityName = e) :=
    mem_sortOn.1 hp
  have h2 := List.mem_filter.1 h1
  refine ⟨?_, by simpa using h2.2⟩
  exact List.mem_enum_iff_getElem?.1 h2.1

theorem nodup_fst_indexedSeries (rows : List Row) (e : String) :
    ((indexedSeries rows e).map Prod.fst).Nodup := by
  have hperm : List.Perm ((indexedSeries rows e).map Prod.fst)
      ((rows.enum.filter (fun p => p.2.entityName = e)).map Prod.fst) :=
    (sortOn_perm _ _).map Prod.fst
  have hsub : List.Sublist
      ((rows.enum.filter (fun p => p.2.entityName = e)).map Prod.fst)
      (rows.enum.map Prod.fst) :=
    (List.filter_sublist _).map Prod.fst
  exact hperm.nodup_iff.2 ((List.nodup_enum_map_fst rows).sublist hsub)

/-- The workhorse of the grouped transforms: after a grouped column
addition, the value stored under `slug` at position `i` of an entity's
date-ordered series is exactly the series-level derivation `f`, applied to
the entity's previous date-ordered series, read at position `i`. -/
theorem addGroupedColumn_getCell (t : Table) (slug : String)
    (f : List Row → List Cell) (e : String) (i : ℕ)
    (h : i < (seriesOf t e).length) :
    ((seriesOf (addGroupedColumn t slug f) e)[i]?).map (fun r => getCell r slug)
      = some (((f (seriesOf t e))[i]?).getD none) := by
  have hi : i < (indexedSeries t.rows e).length := length_indexedSeries t e ▸ h
  set s := indexedSeries t.rows e with hs
  set p := s.get ⟨i, hi⟩ with hpdef
  have hget : s[i]? = some p := by
    rw [List.getElem?_eq_getElem hi]
    rfl
  have hmem : p ∈ s := List.get_mem s i hi
  obtain ⟨hrow, hent⟩ := mem_indexedSeries hmem
  have hpos : posOfKey p.1 s = some i := posOfKey_get s (nodup_fst_indexedSeries t.rows e) i hi
  have hval : valueAt t.rows f p.1 = ((f (seriesOf t e))[i]?).getD none := by
    simp only [valueAt, hrow, Option.some_bind, hent, ← hs, hpos, seriesOf_eq_map_snd]
  rw [seriesOf_addGroupedColumn, List.getElem?_map, hget]
  simp [getCell_setCell, hval]

theorem slice_eq_range' (vals : List Cell) :
    ∀ (n lo : ℕ), lo + n ≤ vals.length →
      (vals.drop lo).take n = (List.range' lo n).map (fun j => (vals[j]?).getD none) := by
  intro n
  induction n with
  | zero => intro lo _; simp
  | succ n ih =>
    intro lo hle
    have hlo : lo < vals.length := by omega
    have hdrop : vals.drop lo = vals[lo] :: vals.drop (lo + 1) :=
      List.drop_eq_getElem_cons hlo
    have hrange : List.range' lo (n + 1) = lo :: List.range' (lo + 1) n := by
      simp [List.range'_succ]
    rw [hdrop, List.take_succ_cons, hrange, List.map_cons, ih (lo + 1) (by omega),
      List.getElem?_eq_getElem hlo]
    rfl

theorem rollingAvg_getElem? (w : ℕ) (vals : List Cell) (i : ℕ) (h : i < vals.length) :
    (rollingAvg w vals)[i]? = some (meanOfWindow vals w i) := by
  rw [rollingAvg, List.getElem?_map, List.getElem?_range h]
  simp only [Option.map_some']
  have hcount : i + 1 - (i + 1 - w) = min w (i + 1) := by omega
  have hslice := slice_eq_range' vals (i + 1 - (i + 1 - w)) (i + 1 - w) (by omega)
  have hwin : ((vals.drop (i + 1 - w)).take (i + 1 - (i + 1 - w))).filterMap id
      = windowVals vals w i := by
    rw [hslice, windowVals, ← hcount, List.filterMap_map]
    congr 1
  rw [hwin]
  simp [meanOfWindow, List.length_eq_zero]

/-- C1: for every table, window size w ≥ 1, source function and entity,
`addRollingAverageColumn` assigns at position i of the entity's date-ordered
series the arithmetic mean of the source values at positions
max(0, i-w+1)..i of that same entity's series (the mean is taken over
`seriesOf t e` only, so the window never includes rows of another entity),
excluding absent source values from numerator and denominator; a window
with no available source value yields absent.  On the test fixture with
window 3 over total_cases, row 3's totalCasesSmoothed equals 14.5. -/
theorem rollingAverage_spec :
    (∀ (t : Table) (slug : String) (w : ℕ) (src : Row → Cell) (e : String) (i : ℕ),
        1 ≤ w → i < (seriesOf t e).length →
        ((seriesOf (addRollingAverageColumn t slug w src) e)[i]?).map
            (fun r => getCell r slug)
          = some (meanOfWindow ((seriesOf t e).map src) w i))
    ∧ ((addRollingAverageColumn fixtureTable "totalCasesSmoothed" 3
          (fun r => getCell r "total_cases")).rows[3]?).map
        (fun r => getCell r "totalCasesSmoothed") = some (some (14.5 : ℚ)) := by
  constructor
  · intro t slug w src e i _ h
    rw [addRollingAverageColumn, addGroupedColumn_getCell t slug _ e i h]
    have hlen : i < ((seriesOf t e).map src).length := by simpa using h
    rw [rollingAvg_getElem? w _ i hlen]
    rfl
  · decide

/-- Witness for C1: the universal statement instantiated on the fixture's
four-day entity at series position 3 with window 3. -/
theorem rollingAverage_spec_witness :
    ((seriesOf (addRollingAverageColumn fixtureTable "totalCasesSmoothed" 3
        (fun r => getCell r "total_cases")) "Aland")[3]?).map
      (fun r => getCell r "totalCasesSmoothed")
      = some (meanOfWindow ((seriesOf fixtureTable "Aland").map
          (fun r => getCell r "total_cases")) 3 3) :=
  rollingAverage_spec.1 fixtureTable "totalCasesSmoothed" 3
    (fun r => getCell r "total_cases") "Aland" 3 (by decide) (by decide)

theorem findIdx?_eq_some_of_first {α : Type} (l : List α) (p : α → Bool) :
    ∀ (k : ℕ) (hk : k < l.length), p (l.get ⟨k, hk⟩) = true →
      (∀ (j : ℕ) (hj : j < l.length), j < k → p (l.get ⟨j, hj⟩) = false) →
      l.findIdx? p = some k := by
  induction l with
  | nil => intro k hk; simp at hk
  | cons x xs ih =>
    intro k hk hp hbefore
    rcases k with _ | k
    · simp only [List.get] at hp
      simp [List.findIdx?_cons, hp]
    · have hx : p x = false := hbefore 0 (by simp) (Nat.succ_pos k)
      have hxs : xs.findIdx? p = some k := by
        refine ih k (by simpa using hk) hp ?_
        intro j hj hjk
        exact hbefore (j + 1) (by simpa using hj) (by omega)
      rw [List.findIdx?_cons, if_neg (by simp [hx]), List.findIdx?_start_succ, hxs]
      rfl

theorem mem_addSlug_self (slugs : List String) (slug : String) :
    slug ∈ addSlug slugs slug := by
  by_cases h : slug ∈ slugs <;> simp [addSlug, h]

theorem reachedBy_eq_false {sourceSlug : String} {threshold : ℚ} {r : Row}
    (h : ∀ v, getCell r sourceSlug = some v → v < threshold) :
    reachedBy sourceSlug threshold r = false := by
  rw [reachedBy]
  cases hg : getCell r sourceSlug with
  | none => rfl
  | some v => simpa using not_le.2 (h v hg)

theorem reachedBy_eq_true {sourceSlug : String} {threshold : ℚ} {r : Row}
    (h : ∃ v, getCell r sourceSlug = some v ∧ threshold ≤ v) :
    reachedBy sourceSlug threshold r = true := by
  obtain ⟨v, hg, hv⟩ := h
  rw [reachedBy, hg]
  simpa using hv

theorem daysSinceSeries_of_none (sourceSlug : String) (threshold : ℚ) (minDays : ℕ)
    (series : List Row)
    (hfind : series.findIdx? (reachedBy sourceSlug threshold) = none)
    (i : ℕ) (hi : i < series.length) :
    (daysSinceSeries sourceSlug threshold minDays series)[i]? = some none := by
  rw [daysSinceSeries, hfind]
  simp [List.getElem?_eq_getElem, hi]

theorem daysSinceSeries_of_short (sourceSlug : String) (threshold : ℚ) (minDays : ℕ)
    (series : List Row) (k : ℕ)
    (hfind : series.findIdx? (reachedBy sourceSlug threshold) = some k)
    (hshort : series.length - (k + 1) < minDays)
    (i : ℕ) (hi : i < series.length) :
    (daysSinceSeries sourceSlug threshold minDays series)[i]? = some none := by
  rw [daysSinceSeries, hfind]
  simp [hshort, List.getElem?_eq_getElem, hi]

theorem daysSinceSeries_of_aligned (sourceSlug : String) (threshold : ℚ) (minDays : ℕ)
    (series : List Row) (k : ℕ)
    (hfind : series.findIdx? (reachedBy sourceSlug threshold) = some k)
    (hk : k < series.length)
    (hlong : minDays ≤ series.length - (k + 1))
    (i : ℕ) (hi : i < series.length) :
    (daysSinceSeries sourceSlug threshold minDays series)[i]?
      = some (if i < k then none
          else some (((series.get ⟨i, hi⟩).day : ℚ) - ((series.get ⟨k, hk⟩).day : ℚ))) := by
  rw [daysSinceSeries, hfind]
  simp only
  rw [if_neg (by omega)]
  rw [List.getElem?_map, List.getElem?_enum, List.getElem?_eq_getElem hi]
  simp only [Option.map_some']
  congr 1
  rw [List.getElem?_eq_getElem hk]
  simp only [Option.map_some', Option.getD_some]
  rfl

/-- C2: for every table and entity, a successful `addDaysSinceColumn`
assigns absent to every series position before the first one whose source
value reaches the threshold, day-index 0 at that position, and the day
distance to the threshold date after it (so the index grows by exactly 1
per subsequent day); when the entity never reaches the threshold, or fewer
than `minDays` further samples follow the threshold position, all of the
entity's positions are absent.  The call returns the minted identifier,
already registered, so the caller needs no recomputation. -/
theorem daysSince_spec :
    ∀ (t : Table) (sourceSlug : String) (threshold : ℚ) (minDays : ℕ) (title : String)
      (t' : Table) (slug : String),
      addDaysSinceColumn t sourceSlug threshold minDays title = .ok (t', slug) →
      (slug = daysSinceSlug sourceSlug ∧ slug ∈ t'.columnSlugs) ∧
      ∀ e : String,
        ((∀ r ∈ seriesOf t e, ∀ v, getCell r sourceSlug = some v → v < threshold) →
          ∀ i, i < (seriesOf t e).length →
            ((seriesOf t' e)[i]?).map (fun r => getCell r slug) = some none) ∧
        (∀ (k : ℕ) (hk : k < (seriesOf t e).length),
          (∃ v, getCell ((seriesOf t e).get ⟨k, hk⟩) sourceSlug = some v ∧ threshold ≤ v) →
          (∀ (j : ℕ) (hj : j < (seriesOf t e).length), j < k →
            ∀ v, getCell ((seriesOf t e).get ⟨j, hj⟩) sourceSlug = some v → v < threshold) →
          (((seriesOf t e).length - (k + 1) < minDays →
            ∀ i, i < (seriesOf t e).length →
              ((seriesOf t' e)[i]?).map (fun r => getCell r slug) = some none) ∧
          (minDays ≤ (seriesOf t e).length - (k + 1) →
            ∀ (i : ℕ) (hi : i < (seriesOf t e).length),
              ((seriesOf t' e)[i]?).map (fun r => getCell r slug)
                = some (if i < k then none
                    else some ((((seriesOf t e).get ⟨i, hi⟩).day : ℚ)
                      - (((seriesOf t e).get ⟨k, hk⟩).day : ℚ)))))) := by
  intro t sourceSlug threshold minDays title t' slug h
  by_cases hsrc : sourceSlug ∈ t.columnSlugs
  swap
  · rw [addDaysSinceColumn, if_neg hsrc] at h
    exact absurd h (by simp)
  rw [addDaysSinceColumn, if_pos hsrc] at h
  obtain ⟨ht', hslug⟩ : t' = addGroupedColumn t (daysSinceSlug sourceSlug)
      (daysSinceSeries sourceSlug threshold minDays) ∧ slug = daysSinceSlug sourceSlug := by
    have := h
    simp only [Except.ok.injEq, Prod.mk.injEq] at this
    exact ⟨this.1.symm, this.2.symm⟩
  subst ht' hslug
  refine ⟨⟨rfl, mem_addSlug_self _ _⟩, ?_⟩
  intro e
  constructor
  · intro hnever i hi
    have hfind : (seriesOf t e).findIdx? (reachedBy sourceSlug threshold) = none :=
      List.findIdx?_eq_none_iff.2
        (fun r hr => reachedBy_eq_false (fun v hv => hnever r hr v hv))
    rw [addGroupedColumn_getCell t _ _ e i hi,
      daysSinceSeries_of_none sourceSlug threshold minDays _ hfind i hi]
    rfl
  · intro k hk hreach hbefore
    have hfind : (seriesOf t e).findIdx? (reachedBy sourceSlug threshold) = some k :=
      findIdx?_eq_some_of_first _ _ k hk (reachedBy_eq_true hreach)
        (fun j hj hjk => reachedBy_eq_false (fun v hv => hbefore j hj hjk v hv))
    constructor
    · intro hshort i hi
      rw [addGroupedColumn_getCell t _ _ e i hi,
        daysSinceSeries_of_short sourceSlug threshold minDays _ k hfind hshort i hi]
      rfl
    · intro hlong i hi
      rw [addGroupedColumn_getCell t _ _ e i hi,
        daysSinceSeries_of_aligned sourceSlug threshold minDays _ k hfind hk hlong i hi]
      rfl

/-- Witness for C2: the contract instantiated on a two-day table whose
source column reaches the threshold on the first day. -/
theorem daysSince_spec_witness :
    ((seriesOf (addGroupedColumn sampleDaysTable "daysSince-src"
        (daysSinceSeries "src" 5 1)) "X")[1]?).map
      (fun r => getCell r "daysSince-src")
      = some (if 1 < 0 then none
          else some ((((seriesOf sampleDaysTable "X").get ⟨1, by decide⟩).day : ℚ)
            - (((seriesOf sampleDaysTable "X").get ⟨0, by decide⟩).day : ℚ))) :=
  (((daysSince_spec sampleDaysTable "src" 5 1 "days since 5" _ _ rfl).2 "X").2 0
      (by decide) ⟨5, by decide, by decide⟩
      (fun j hj hjk => absurd hjk (Nat.not_lt_zero j))).2 (by decide) 1 (by decide)

theorem codeNum_injective : ∀ m1 m2 : MetricKind, m1.codeNum = m2.codeNum → m1 = m2 := by
  intro m1 m2 h
  cases m1 <;> cases m2 <;> simp_all [MetricKind.codeNum]

/-- C3: `buildColumnSpec` is a pure function of exactly its parameter
tuple: identical tuples give identical specs, tuples differing in at least
one parameter give distinct `owidVariableId`s, and the five tuples
exercised in the test yield five pairwise-distinct identifiers. -/
theorem buildColumnSpec_spec :
    (∀ (m1 m2 : MetricKind) (w1 w2 : ℕ) (p1 p2 : Bool) (s1 s2 : ℕ),
        (m1, w1, p1, s1) ≠ (m2, w2, p2, s2) →
        (buildColumnSpec m1 w1 p1 s1).owidVariableId
          ≠ (buildColumnSpec m2 w2 p2 s2).owidVariableId)
    ∧ (∀ (m : MetricKind) (w : ℕ) (p : Bool) (s : ℕ),
        buildColumnSpec m w p s = buildColumnSpec m w p s)
    ∧ List.Pairwise (· ≠ ·)
        [(buildColumnSpec .tests 1000 true 3).owidVariableId,
         (buildColumnSpec .cases 1000 true 3).owidVariableId,
         (buildColumnSpec .tests 100 true 3).owidVariableId,
         (buildColumnSpec .tests 1000 true 0).owidVariableId,
         (buildColumnSpec .tests 1000 false 3).owidVariableId] := by
  refine ⟨?_, fun m w p s => rfl, by decide⟩
  intro m1 m2 w1 w2 p1 p2 s1 s2 hne heq
  apply hne
  simp only [buildColumnSpec, Nat.pair_eq_pair] at heq
  obtain ⟨hm, hw, hp, hs⟩ := heq
  have hmm : m1 = m2 := codeNum_injective m1 m2 hm
  have hpp : p1 = p2 := by
    cases p1 <;> cases p2 <;> simp_all
  simp [hmm, hw, hpp, hs]

/-- Witness for C3: two tuples differing only in the metric get distinct
identifiers. -/
theorem buildColumnSpec_spec_witness :
    (buildColumnSpec .tests 1000 true 3).owidVariableId
      ≠ (buildColumnSpec .cases 1000 true 3).owidVariableId :=
  buildColumnSpec_spec.1 .tests .cases 1000 1000 true true 3 3 (by decide)

theorem mem_addSlug_of_mem {slugs : List String} {s' : String} (slug : String)
    (h : s' ∈ slugs) : s' ∈ addSlug slugs slug := by
  by_cases hm : slug ∈ slugs <;> simp [addSlug, hm, h]

theorem nodup_addSlug {slugs : List String} (h : slugs.Nodup) (slug : String) :
    (addSlug slugs slug).Nodup := by
  by_cases hm : slug ∈ slugs
  · simpa [addSlug, hm] using h
  · simp [addSlug, hm, List.nodup_append, h, List.disjoint_singleton]

theorem ensureColumn_of_mem {t : Table} {slug : String}
    (h : slug ∈ t.columnSlugs) (f : List Row → List Cell) :
    ensureColumn t slug f = t := by
  simp [ensureColumn, h]

theorem mem_ensureColumn_self (t : Table) (slug : String) (f : List Row → List Cell) :
    slug ∈ (ensureColumn t slug f).columnSlugs := by
  by_cases h : slug ∈ t.columnSlugs
  · simpa [ensureColumn, h] using h
  · simpa [ensureColumn, h, addGroupedColumn] using mem_addSlug_self t.columnSlugs slug

theorem mem_ensureColumn_of_mem {t : Table} {s' : String}
    (slug : String) (f : List Row → List Cell) (h : s' ∈ t.columnSlugs) :
    s' ∈ (ensureColumn t slug f).columnSlugs := by
  by_cases hm : slug ∈ t.columnSlugs
  · simpa [ensureColumn, hm] using h
  · simpa [ensureColumn, hm, addGroupedColumn] using mem_addSlug_of_mem slug h

theorem ensureColumn_idem (t : Table) (slug : String) (f : List Row → List Cell) :
    ensureColumn (ensureColumn t slug f) slug f = ensureColumn t slug f :=
  ensureColumn_of_mem (mem_ensureColumn_self t slug f) f

theorem nodup_ensureColumn {t : Table} (h : t.columnSlugs.Nodup)
    (slug : String) (f : List Row → List Cell) :
    (ensureColumn t slug f).columnSlugs.Nodup := by
  by_cases hm : slug ∈ t.columnSlugs
  · simpa [ensureColumn, hm] using h
  · simpa [ensureColumn, hm, addGroupedColumn] using nodup_addSlug h slug

theorem ensureColumn_columnSlugs (t : Table) (slug : String) (f : List Row → List Cell) :
    (ensureColumn t slug f).columnSlugs = t.columnSlugs ∨
      (ensureColumn t slug f).columnSlugs = t.columnSlugs ++ [slug] := by
  by_cases hm : slug ∈ t.columnSlugs
  · exact Or.inl (by simp [ensureColumn, hm])
  · exact Or.inr (by simp [ensureColumn, hm, addGroupedColumn, addSlug])

theorem initTestingColumn_of_mem {t : Table} {p : QueryParams}
    (h : testsSlugOf p ∈ t.columnSlugs) : initTestingColumn t p = t :=
  ensureColumn_of_mem h (testsFn p)

theorem initTestingColumn_idem (t : Table) (p : QueryParams) :
    initTestingColumn (initTestingColumn t p) p = initTestingColumn t p :=
  ensureColumn_idem t (testsSlugOf p) (testsFn p)

theorem mem_initTestingColumn_of_mem {t : Table} {s' : String} (p : QueryParams)
    (h : s' ∈ t.columnSlugs) : s' ∈ (initTestingColumn t p).columnSlugs :=
  mem_ensureColumn_of_mem (testsSlugOf p) (testsFn p) h

theorem initRequestedColumns_idem (t : Table) (p : QueryParams) :
    initRequestedColumns (initRequestedColumns t p) p = initRequestedColumns t p := by
  by_cases htm : p.testsMetric <;> by_cases hal : p.aligned
  · have h1 : initRequestedColumns t p
        = ensureColumn (initTestingColumn t p) "deaths-perMil-cumulative" deathsPerMilFn := by
      simp [initRequestedColumns, htm, hal]
    have hmem : testsSlugOf p ∈ (initRequestedColumns t p).columnSlugs := by
      rw [h1]
      exact mem_ensureColumn_of_mem _ _ (mem_ensureColumn_self t _ _)
    rw [initRequestedColumns, if_pos htm, initTestingColumn_of_mem hmem, if_pos hal, h1,
      ensureColumn_idem, ← h1]
  · have h1 : initRequestedColumns t p = initTestingColumn t p := by
      simp [initRequestedColumns, htm, hal]
    rw [initRequestedColumns, if_pos htm, if_neg hal, h1, initTestingColumn_idem, ← h1]
  · have h1 : initRequestedColumns t p
        = ensureColumn t "deaths-perMil-cumulative" deathsPerMilFn := by
      simp [initRequestedColumns, htm, hal]
    rw [initRequestedColumns, if_neg htm, if_pos hal, h1, ensureColumn_idem, ← h1]
  · simp [initRequestedColumns, htm, hal]

theorem nodup_initRequestedColumns {t : Table} (h : t.columnSlugs.Nodup)
    (p : QueryParams) : (initRequestedColumns t p).columnSlugs.Nodup := by
  rw [initRequestedColumns]
  by_cases htm : p.testsMetric <;> by_cases hal : p.aligned <;>
    simp only [htm, hal, if_pos, if_neg, Bool.false_eq_true, ite_false, ite_true]
  · exact nodup_ensureColumn (nodup_ensureColumn h _ _) _ _
  · exact nodup_ensureColumn h _ _
  · exact nodup_ensureColumn h _ _
  · exact h

/-- C4: the column orchestration is idempotent per parameter combination:
re-invocation with identical parameters leaves the table (hence the slug
registry) unchanged, a registry without duplicates never acquires one, one
invocation adds at most the combination's unique slug, and that slug is a
member afterwards (membership-checked, not re-derived). -/
theorem orchestration_spec :
    (∀ (t : Table) (p : QueryParams),
        initTestingColumn (initTestingColumn t p) p = initTestingColumn t p)
    ∧ (∀ (t : Table) (p : QueryParams),
        initRequestedColumns (initRequestedColumns t p) p = initRequestedColumns t p)
    ∧ (∀ (t : Table) (p : QueryParams), t.columnSlugs.Nodup →
        (initTestingColumn t p).columnSlugs.Nodup
          ∧ (initRequestedColumns t p).columnSlugs.Nodup)
    ∧ (∀ (t : Table) (p : QueryParams),
        (initTestingColumn t p).columnSlugs = t.columnSlugs ∨
          (initTestingColumn t p).columnSlugs = t.columnSlugs ++ [testsSlugOf p])
    ∧ (∀ (t : Table) (p : QueryParams),
        testsSlugOf p ∈ (initTestingColumn t p).columnSlugs) := by
  refine ⟨initTestingColumn_idem, initRequestedColumns_idem, ?_, ?_, ?_⟩
  · intro t p h
    exact ⟨nodup_ensureColumn h _ _, nodup_initRequestedColumns h p⟩
  · intro t p
    exact ensureColumn_columnSlugs t (testsSlugOf p) (testsFn p)
  · intro t p
    exact mem_ensureColumn_self t (testsSlugOf p) (testsFn p)

/-- Witness for C4: the no-duplicates conjunct instantiated on the fixture
table and the daily-tests parameter combination of the test. -/
theorem orchestration_spec_witness :
    (initTestingColumn fixtureTable
        { testsMetric := true, dailyFreq := true }).columnSlugs.Nodup
      ∧ (initRequestedColumns fixtureTable
          { testsMetric := true, dailyFreq := true }).columnSlugs.Nodup :=
  orchestration_spec.2.2.1 fixtureTable { testsMetric := true, dailyFreq := true }
    (by decide)

theorem getLeastUsedColor_isSome :
    ∀ (palette : List String), palette ≠ [] → ∀ usedColors : List String,
      (getLeastUsedColor palette usedColors).isSome := by
  intro palette hne usedColors
  cases palette with
  | nil => exact absurd rfl hne
  | cons c rest =>
    cases hrec : getLeastUsedColor rest usedColors with
    | none => simp [getLeastUsedColor, hrec]
    | some b =>
      simp only [getLeastUsedColor, hrec]
      split <;> simp

theorem getLeastUsedColor_min :
    ∀ (palette usedColors : List String) (c : String),
      getLeastUsedColor palette usedColors = some c →
      c ∈ palette
        ∧ (∀ p ∈ palette, usedColors.count c ≤ usedColors.count p)
        ∧ (∀ (i : ℕ) (hi : i < palette.length),
            usedColors.count (palette.get ⟨i, hi⟩) = usedColors.count c →
            palette.indexOf c ≤ i) := by
  intro palette
  induction palette with
  | nil => intro used c h; simp [getLeastUsedColor] at h
  | cons x rest ih =>
    intro used c h
    cases hrec : getLeastUsedColor rest used with
    | none =>
      have hrest : rest = [] := by
        by_contra hne
        have := getLeastUsedColor_isSome rest hne used
        rw [hrec] at this
        simp at this
      subst hrest
      rw [getLeastUsedColor] at h
      simp only [getLeastUsedColor] at h
      have hc : c = x := by simpa using h.symm
      subst hc
      refine ⟨by simp, by simp, ?_⟩
      intro i hi _
      simp
    | some b =>
      simp only [getLeastUsedColor, hrec] at h
      obtain ⟨hbmem, hbmin, hbtie⟩ := ih used b hrec
      by_cases hlt : used.count b < used.count x
      · rw [if_pos hlt] at h
        have hc : c = b := by simpa using h.symm
        subst hc
        refine ⟨List.mem_cons_of_mem x hbmem, ?_, ?_⟩
        · intro p hp
          rcases List.mem_cons.1 hp with hpx | hpr
          · exact hpx ▸ le_of_lt hlt
          · exact hbmin p hpr
        · intro i hi hcnt
          rcases i with _ | j
          · exfalso
            have : used.count x = used.count c := hcnt
            rw [this] at hlt
            exact lt_irrefl _ hlt
          · have hj : j < rest.length := by simpa using hi
            have : rest.indexOf c ≤ j := hbtie j hj hcnt
            by_cases hxc : x = c
            · simp [List.indexOf_cons, hxc]
            · rw [List.indexOf_cons]
              have hbeq : (x == c) = false := beq_false_of_ne hxc
              simp [hbeq]
              omega
      · rw [if_neg hlt] at h
        have hc : c = x := by simpa using h.symm
        subst hc
        refine ⟨List.mem_cons_self _ _, ?_, ?_⟩
        · intro p hp
          rcases List.mem_cons.1 hp with hpx | hpr
          · exact hpx ▸ le_refl _
          · exact le_trans (not_lt.1 hlt) (hbmin p hpr)
        · intro i hi _
          simp [List.indexOf_cons]

/-- C6: `getLeastUsedColor` returns a palette element with the fewest
occurrences in the caller-supplied usage multiset, ties broken in favor of
the earliest-declared palette element, with no hidden state (a pure
function of its two arguments; a nonempty palette always yields a color);
the two contract examples hold. -/
theorem leastUsedColor_spec :
    (∀ (palette usedColors : List String) (c : String),
        getLeastUsedColor palette usedColors = some c →
        c ∈ palette
          ∧ (∀ p ∈ palette, usedColors.count c ≤ usedColors.count p)
          ∧ (∀ (i : ℕ) (hi : i < palette.length),
              usedColors.count (palette.get ⟨i, hi⟩) = usedColors.count c →
              palette.indexOf c ≤ i))
    ∧ (∀ palette : List String, palette ≠ [] → ∀ usedColors : List String,
        (getLeastUsedColor palette usedColors).isSome)
    ∧ getLeastUsedColor ["red", "green"] ["red"] = some "green"
    ∧ getLeastUsedColor ["red", "green"] ["red", "green", "green"] = some "red" :=
  ⟨getLeastUsedColor_min, getLeastUsedColor_isSome, by decide, by decide⟩

/-- Witness for C6: the minimality statement instantiated on the first
contract example. -/
theorem leastUsedColor_spec_witness :
    "green" ∈ ["red", "green"]
      ∧ (∀ p ∈ ["red", "green"],
          List.count "green" ["red"] ≤ List.count p ["red"])
      ∧ (∀ (i : ℕ) (hi : i < (["red", "green"] : List String).length),
          List.count ((["red", "green"] : List String).get ⟨i, hi⟩) ["red"]
            = List.count "green" ["red"] →
          (["red", "green"] : List String).indexOf "green" ≤ i) :=
  leastUsedColor_spec.1 ["red", "green"] ["red"] "green" (by decide)

theorem lookupAssoc_map_self {β : Type} (keys : List String) (f : String → β)
    (s : String) (hs : s ∈ keys) :
    lookupAssoc (keys.map (fun k => (k, f k))) s = some (f s) := by
  induction keys with
  | nil => simp at hs
  | cons k rest ih =>
    by_cases hk : k = s
    · subst hk; simp [lookupAssoc]
    · have : s ∈ rest := by
        rcases List.mem_cons.1 hs with h | h
        · exact absurd h.symm hk
        · exact h
      simp [lookupAssoc, hk, ih this]

theorem lookupAssoc_mem_snd {β : Type} {l : List (String × β)} {k : String} {v : β}
    (h : lookupAssoc l k = some v) : v ∈ l.map Prod.snd := by
  induction l with
  | nil => simp [lookupAssoc] at h
  | cons p rest ih =>
    rw [lookupAssoc] at h
    by_cases hk : p.1 = k
    · rw [if_pos hk] at h
      have hv := Option.some.inj h
      simp [← hv]
    · rw [if_neg hk] at h
      simpa using Or.inr (by simpa using ih h)

theorem continentOf_mem_order {x c : String} (h : continentOf x = some c) :
    c ∈ continentOrder :=
  (mem_firstSeen _).2 (lookupAssoc_mem_snd h)

theorem getCell_continentRow (rows : List Row) (c : String) (d : ℕ)
    {s : String} (hs : s ∈ covidNumericSlugs) :
    getCell (continentRow rows c d) s
      = some (((rows.filter (fun r =>
          continentOf r.entityName = some c ∧ r.day = d)).map
            (fun r => (getCell r s).getD 0)).sum) := by
  rw [getCell, continentRow]
  simp only
  rw [lookupAssoc_map_self covidNumericSlugs _ s hs]
  rfl

theorem mem_generateContinentRows {rows : List Row} {r' : Row} :
    r' ∈ generateContinentRows rows
      ↔ ∃ c d, c ∈ continentOrder
          ∧ (∃ r ∈ rows, continentOf r.entityName = some c ∧ r.day = d)
          ∧ r' = continentRow rows c d := by
  rw [generateContinentRows, List.mem_flatMap]
  constructor
  · rintro ⟨c, hc, hr'⟩
    rw [continentRowsFor, List.mem_map] at hr'
    obtain ⟨d, hd, hr'⟩ := hr'
    have hd2 : d ∈ (rows.filter
        (fun r => continentOf r.entityName = some c)).map Row.day :=
      (mem_firstSeen _).1 (mem_sortOn.1 hd)
    rw [List.mem_map] at hd2
    obtain ⟨r, hr, hday⟩ := hd2
    rw [List.mem_filter] at hr
    exact ⟨c, d, hc, ⟨r, hr.1, by simpa using hr.2, hday⟩, hr'.symm⟩
  · rintro ⟨c, d, hc, ⟨r, hr, hcont, hday⟩, hr'⟩
    refine ⟨c, hc, ?_⟩
    rw [continentRowsFor, List.mem_map]
    refine ⟨d, mem_sortOn.2 ((mem_firstSeen _).2 ?_), hr'.symm⟩
    rw [List.mem_map]
    exact ⟨r, List.mem_filter.2 ⟨hr, by simpa using hcont⟩, hday⟩

/-- C5: `generateContinentRows` emits exactly one synthetic row per
(continent, date) pair actually present in the input under the external
lookup — pairs are duplicate-free and a pair appears exactly when some
input row maps to it — and each synthetic row's numeric fields are the
sums of its group's fields with absent treated as zero.  On the fixture it
produces rows for exactly the 6 continents and the last row's total_cases
is 46451. -/
theorem continentRows_spec :
    (∀ rows : List Row,
        ((generateContinentRows rows).map (fun r => (r.entityName, r.day))).Nodup)
    ∧ (∀ (rows : List Row) (c : String) (d : ℕ),
        (∃ r' ∈ generateContinentRows rows, r'.entityName = c ∧ r'.day = d)
          ↔ ∃ r ∈ rows, continentOf r.entityName = some c ∧ r.day = d)
    ∧ (∀ rows : List Row, ∀ r' ∈ generateContinentRows rows,
        ∀ s ∈ covidNumericSlugs,
          getCell r' s = some (((rows.filter (fun r =>
              continentOf r.entityName = some r'.entityName ∧ r.day = r'.day)).map
            (fun r => (getCell r s).getD 0)).sum))
    ∧ ((generateContinentRows fixtureRows).length = 6
        ∧ (generateContinentRows fixtureRows).map Row.entityName
            = ["Asia", "Europe", "Africa", "North America", "South America", "Oceania"]
        ∧ ((generateContinentRows fixtureRows).getLast?).map
            (fun r => getCell r "total_cases") = some (some 46451)) := by
  refine ⟨?_, ?_, ?_, by decide, by decide, by decide⟩
  · intro rows
    have hmap : (generateContinentRows rows).map (fun r => (r.entityName, r.day))
        = continentOrder.flatMap (fun c =>
            ((sortOn id (firstSeen ((rows.filter
                (fun r => continentOf r.entityName = some c)).map Row.day)))).map
              (fun d => (c, d))) := by
      rw [generateContinentRows, List.map_flatMap]
      congr 1
      funext c
      rw [continentRowsFor, List.map_map]
      rfl
    rw [hmap]
    rw [List.nodup_flatMap]
    constructor
    · intro c _
      refine List.Nodup.map (fun d1 d2 h => ?_) ?_
      · simpa using h
      · exact (sortOn_perm id _).nodup_iff.2 (nodup_firstSeen _)
    · have hnodup : continentOrder.Nodup := nodup_firstSeen _
      refine hnodup.imp ?_
      intro c1 c2 hne
      intro x hx1 hx2
      rw [List.mem_map] at hx1 hx2
      obtain ⟨d1, _, h1⟩ := hx1
      obtain ⟨d2, _, h2⟩ := hx2
      apply hne
      have h3 := h1.trans h2.symm
      exact (Prod.mk.injEq _ _ _ _ ▸ h3).1
  · intro rows c d
    constructor
    · rintro ⟨r', hr', hent, hday⟩
      obtain ⟨c', d', _, ⟨r, hr, hcont, hday'⟩, heq⟩ :=
        mem_generateContinentRows.1 hr'
      have hc : c' = c := by rw [heq] at hent; exact hent
      have hd : d' = d := by rw [heq] at hday; exact hday
      subst hc hd
      exact ⟨r, hr, hcont, hday'⟩
    · rintro ⟨r, hr, hcont, hday⟩
      refine ⟨continentRow rows c d, ?_, rfl, rfl⟩
      exact mem_generateContinentRows.2
        ⟨c, d, continentOf_mem_order hcont, ⟨r, hr, hcont, hday⟩, rfl⟩
  · intro rows r' hr' s hs
    obtain ⟨c, d, _, _, heq⟩ := mem_generateContinentRows.1 hr'
    subst heq
    exact getCell_continentRow rows c d hs

/-- Witness for C5: the summation statement instantiated at the fixture's
Oceania row, whose group has two member countries. -/
theorem continentRows_spec_witness :
    getCell (continentRow fixtureRows "Oceania" 751505) "total_cases"
      = some (((fixtureRows.filter (fun r =>
          continentOf r.entityName
              = some (continentRow fixtureRows "Oceania" 751505).entityName
            ∧ r.day = (continentRow fixtureRows "Oceania" 751505).day)).map
        (fun r => (getCell r "total_cases").getD 0)).sum) :=
  continentRows_spec.2.2.1 fixtureRows (continentRow fixtureRows "Oceania" 751505)
    (by decide) "total_cases" (by decide)

theorem getElem?_append_mid {α : Type} (A : List α) (w : α) (B : List α) :
    (A ++ ([w] ++ B))[A.length]? = some w := by
  rw [List.getElem?_append_right (le_refl _)]
  simp

/-- C7: `makeCountryOptions` emits the selectable entities in the pinned
deterministic order — countries first-seen with the synthetic world
aggregate injected at canonical index 2 (clamped to the country count) and
continents appended — so for every input the world aggregate sits at the
reproducible position `min 2 (number of countries)`; on the fixture that
position is index 2 and the entry is the synthetic world aggregate with
code OWID_WRL. -/
theorem countryOptions_spec :
    (∀ rows : List Row,
        (makeCountryOptions rows)[min 2 (countriesIn rows).length]? = some worldOption)
    ∧ (makeCountryOptions fixtureRows)[2]? = some worldOption
    ∧ worldOption.code = "OWID_WRL"
    ∧ worldOption.isSynthetic = true := by
  refine ⟨?_, by decide, rfl, rfl⟩
  intro rows
  simp only [makeCountryOptions]
  have hidx : min 2 (countriesIn rows).length
      = (((countriesIn rows).map (fun p =>
          ({ name := p.1, code := p.2, isSynthetic := false } : CountryOption))).take
            2).length := by
    rw [List.length_take, List.length_map]
  rw [hidx, List.append_assoc, List.append_assoc, getElem?_append_mid]

/-- Witness for C7: the pinned-position statement instantiated on the
fixture, whose country count is 8. -/
theorem countryOptions_spec_witness :
    (makeCountryOptions fixtureRows)[min 2 (countriesIn fixtureRows).length]?
      = some worldOption :=
  countryOptions_spec.1 fixtureRows

theorem parseCovidRow_ok_cells {raw : RawRow} {row : Row}
    (h : parseCovidRow raw = .ok row) :
    row.cells = covidNumericSlugs.map (fun s => (s, parseNum (rawGet raw s))) := by
  rw [parseCovidRow] at h
  by_cases h1 : rawGet raw "location" = ""
  · rw [if_pos h1] at h; exact absurd h (by simp)
  rw [if_neg h1] at h
  by_cases h2 : rawGet raw "iso_code" = ""
  · rw [if_pos h2] at h; exact absurd h (by simp)
  rw [if_neg h2] at h
  cases hdate : parseDate (rawGet raw "date") with
  | none => rw [hdate] at h; exact absurd h (by simp)
  | some d =>
    rw [hdate] at h
    rw [← Except.ok.inj h]

/-- C8: every numeric field of a raw row that fails to parse as a finite
number is mapped to the explicit absent marker — the cell is exactly
`parseNum` of the raw text, so an unparsable field is `none`, never zero
and never NaN (`ℚ` has none) — without aborting ingestion; a row whose
identity fields (entity name, entity code, date) fail to parse is rejected
with a `MalformedRowError` naming the first offending field while the
remaining rows are still ingested. -/
theorem parseCovidRow_spec :
    (∀ (raw : RawRow) (row : Row), parseCovidRow raw = .ok row →
        ∀ s ∈ covidNumericSlugs, getCell row s = parseNum (rawGet raw s))
    ∧ (∀ (raw : RawRow) (row : Row), parseCovidRow raw = .ok row →
        ∀ s ∈ covidNumericSlugs, parseNum (rawGet raw s) = none → getCell row s = none)
    ∧ (∀ raw : RawRow, rawGet raw "location" = "" →
        parseCovidRow raw = .error ⟨"location"⟩)
    ∧ (∀ raw : RawRow, rawGet raw "location" ≠ "" → rawGet raw "iso_code" = "" →
        parseCovidRow raw = .error ⟨"iso_code"⟩)
    ∧ (∀ raw : RawRow, rawGet raw "location" ≠ "" → rawGet raw "iso_code" ≠ "" →
        parseDate (rawGet raw "date") = none → parseCovidRow raw = .error ⟨"date"⟩)
    ∧ (∀ (xs ys : List RawRow) (bad : RawRow) (e : MalformedRowError),
        parseCovidRow bad = .error e →
        (parseCovidRows (xs ++ bad :: ys)).1
          = (parseCovidRows xs).1 ++ (parseCovidRows ys).1)
    ∧ parseCovidRow ⟨[("iso_code", "ALA"), ("location", "Aland"), ("date", "bogus"),
        ("total_cases", "NaN")]⟩ = .error ⟨"date"⟩
    ∧ (fixtureRows[0]?).map (fun r => getCell r "total_cases") = some (some 2)
    ∧ (fixtureRows[3]?).map (fun r => getCell r "total_cases") = some none := by
  have hcells : ∀ (raw : RawRow) (row : Row), parseCovidRow raw = .ok row →
      ∀ s ∈ covidNumericSlugs, getCell row s = parseNum (rawGet raw s) := by
    intro raw row h s hs
    rw [getCell, parseCovidRow_ok_cells h, lookupAssoc_map_self covidNumericSlugs _ s hs]
    rfl
  refine ⟨hcells, ?_, ?_, ?_, ?_, ?_, by rfl, by decide, by decide⟩
  · intro raw row h s hs hnone
    rw [hcells raw row h s hs, hnone]
  · intro raw h1
    rw [parseCovidRow, if_pos h1]
  · intro raw h1 h2
    rw [parseCovidRow, if_neg h1, if_pos h2]
  · intro raw h1 h2 hdate
    rw [parseCovidRow, if_neg h1, if_neg h2, hdate]
  · intro xs ys bad e hbad
    have htoOpt : (parseCovidRow bad).toOption = none := by
      rw [hbad]; rfl
    simp [parseCovidRows, List.filterMap_append, List.filterMap_cons, htoOpt]

/-- Witness for C8: the numeric-cell statement instantiated on a raw row
whose total_cases text is empty, yielding the absent marker. -/
theorem parseCovidRow_spec_witness :
    getCell
        { entityName := "Aland", code := "ALA", day := 751505,
          cells := [("total_cases", none), ("new_cases", none), ("total_deaths", none),
                    ("new_deaths", none), ("total_tests", none), ("new_tests", none),
                    ("population", none)] }
        "total_cases"
      = parseNum (rawGet (rawRec "ALA" "Aland" "2020-03-04" "") "total_cases") :=
  parseCovidRow_spec.1 (rawRec "ALA" "Aland" "2020-03-04" "") _ (by rfl)
    "total_cases" (by decide)

/-- C9: every slug-referencing derived-column transform invoked with a
source slug that names no registered column signals a `MissingColumnError`
naming the missing slug; in this functional embedding the failed call
returns only the error — no transformed table is produced, so the caller's
table and its slug registry are untouched and no partial column exists. -/
theorem missingColumn_spec :
    (∀ (t : Table) (sourceSlug : String) (threshold : ℚ) (minDays : ℕ) (title : String),
        sourceSlug ∉ t.columnSlugs →
        addDaysSinceColumn t sourceSlug threshold minDays title
          = .error ⟨sourceSlug⟩)
    ∧ (∀ (t : Table) (sourceSlug newSlug : String) (factor : ℚ),
        sourceSlug ∉ t.columnSlugs →
        scaleColumn t sourceSlug newSlug factor = .error ⟨sourceSlug⟩) := by
  constructor
  · intro t sourceSlug threshold minDays title h
    rw [addDaysSinceColumn, if_neg h]
  · intro t sourceSlug newSlug factor h
    rw [scaleColumn, if_neg h]

/-- Witness for C9: both slug-checked transforms fail on the fixture table
for an unregistered slug, naming it. -/
theorem missingColumn_spec_witness :
    addDaysSinceColumn fixtureTable "nope" 0 0 "title" = .error ⟨"nope"⟩
      ∧ scaleColumn fixtureTable "nope" "scaled" 2 = .error ⟨"nope"⟩ :=
  ⟨missingColumn_spec.1 fixtureTable "nope" 0 0 "title" (by decide),
   missingColumn_spec.2 fixtureTable "nope" "scaled" 2 (by decide)⟩

end Covid

namespace Bounds

theorem build_width_nonneg (x y w h : ℚ) : 0 ≤ (build x y w h).width :=
  le_max_right w 0

theorem build_height_nonneg (x y w h : ℚ) : 0 ≤ (build x y w h).height :=
  le_max_right h 0

/-- C10: the `Bounds` constructor clamps a negative width or height to 0,
so every operation that produces a `Bounds` — fromProps, fromCorners,
merge, empty, forText, the seven pad variants, extend, scale and split —
yields non-negative width and height, even when the padding amount exceeds
the available extent or the scale factor is negative (JS numbers modelled
as rationals: real arithmetic, no NaN and no infinities). -/
theorem nonneg_invariant :
    (∀ x y w h : ℚ, 0 ≤ (fromProps x y w h).width ∧ 0 ≤ (fromProps x y w h).height)
    ∧ (∀ p1 p2 : PointVector,
        0 ≤ (fromCorners p1 p2).width ∧ 0 ≤ (fromCorners p1 p2).height)
    ∧ (∀ l : List Bounds, 0 ≤ (merge l).width ∧ 0 ≤ (merge l).height)
    ∧ (0 ≤ emptyBounds.width ∧ 0 ≤ emptyBounds.height)
    ∧ (∀ (pw : String → ℚ → ℚ) (str : String) (x y fs : ℚ),
        0 ≤ (forText pw str x y fs).width ∧ 0 ≤ (forText pw str x y fs).height)
    ∧ (∀ (b : Bounds) (a : ℚ),
        (0 ≤ (padLeft b a).width ∧ 0 ≤ (padLeft b a).height)
        ∧ (0 ≤ (padRight b a).width ∧ 0 ≤ (padRight b a).height)
        ∧ (0 ≤ (padTop b a).width ∧ 0 ≤ (padTop b a).height)
        ∧ (0 ≤ (padBottom b a).width ∧ 0 ≤ (padBottom b a).height)
        ∧ (0 ≤ (padWidth b a).width ∧ 0 ≤ (padWidth b a).height)
        ∧ (0 ≤ (padHeight b a).width ∧ 0 ≤ (padHeight b a).height)
        ∧ (0 ≤ (pad b a).width ∧ 0 ≤ (pad b a).height))
    ∧ (∀ (b : Bounds) (x y w h : Option ℚ),
        0 ≤ (extend b x y w h).width ∧ 0 ≤ (extend b x y w h).height)
    ∧ (∀ (b : Bounds) (s : ℚ), 0 ≤ (scale b s).width ∧ 0 ≤ (scale b s).height)
    ∧ (∀ (b : Bounds) (pieces : ℕ) (cp rp op : ℚ),
        ∀ r ∈ split b pieces cp rp op, 0 ≤ r.width ∧ 0 ≤ r.height) := by
  refine ⟨fun x y w h => ⟨build_width_nonneg _ _ _ _, build_height_nonneg _ _ _ _⟩,
    fun p1 p2 => ⟨build_width_nonneg _ _ _ _, build_height_nonneg _ _ _ _⟩,
    ?_,
    ⟨build_width_nonneg _ _ _ _, build_height_nonneg _ _ _ _⟩,
    ?_,
    fun b a => ⟨⟨build_width_nonneg _ _ _ _, build_height_nonneg _ _ _ _⟩,
      ⟨build_width_nonneg _ _ _ _, build_height_nonneg _ _ _ _⟩,
      ⟨build_width_nonneg _ _ _ _, build_height_nonneg _ _ _ _⟩,
      ⟨build_width_nonneg _ _ _ _, build_height_nonneg _ _ _ _⟩,
      ⟨build_width_nonneg _ _ _ _, build_height_nonneg _ _ _ _⟩,
      ⟨build_width_nonneg _ _ _ _, build_height_nonneg _ _ _ _⟩,
      ⟨build_width_nonneg _ _ _ _, build_height_nonneg _ _ _ _⟩⟩,
    fun b x y w h => ⟨build_width_nonneg _ _ _ _, build_height_nonneg _ _ _ _⟩,
    fun b s => ⟨build_width_nonneg _ _ _ _, build_height_nonneg _ _ _ _⟩,
    ?_⟩
  · intro l
    cases l with
    | nil => exact ⟨build_width_nonneg _ _ _ _, build_height_nonneg _ _ _ _⟩
    | cons b bs => exact ⟨build_width_nonneg _ _ _ _, build_height_nonneg _ _ _ _⟩
  · intro pw str x y fs
    rw [forText]
    split
    · exact ⟨build_width_nonneg _ _ _ _, build_height_nonneg _ _ _ _⟩
    · exact ⟨build_width_nonneg _ _ _ _, build_height_nonneg _ _ _ _⟩
  · intro b pieces cp rp op r hr
    rw [split, List.mem_map] at hr
    obtain ⟨i, _, hi⟩ := hr
    rw [← hi]
    exact ⟨build_width_nonneg _ _ _ _, build_height_nonneg _ _ _ _⟩

/-- Witness for C10: the split conjunct instantiated on a concrete
rectangle cut in two, at its first produced piece. -/
theorem nonneg_invariant_witness :
    0 ≤ (Bounds.mk 0 0 5 10).width ∧ 0 ≤ (Bounds.mk 0 0 5 10).height :=
  nonneg_invariant.2.2.2.2.2.2.2.2 (build 0 0 10 10) 2 0 0 0
    (Bounds.mk 0 0 5 10) (by decide)

end Bounds
